import Mathlib

/-!
Verification development for the SendSafe backend core: the input
sanitizer, the fixed-window rate limiter, and the OpenAI response
normalizer.  Each TypeScript function is shallowly embedded as an
executable Lean definition; strings are modelled as their lists of
unicode scalar values, JavaScript numbers used as timestamps and
counters are modelled as `Int`, and code paths that throw are modelled
with `Except`.
-/

namespace SendSafe

/-! ## Character classes (sanitizeInput.ts) -/

/-- The character set removed by `CONTROL_CHAR_REGEX`
`[\x00-\x08\x0B\x0C\x0E-\x1F\x7F]` : C0 controls except tab, LF, CR,
plus DEL. -/
def controlChar (c : Char) : Bool :=
  c.val ≤ 0x08 || c.val = 0x0B || c.val = 0x0C ||
  (0x0E ≤ c.val && c.val ≤ 0x1F) || c.val = 0x7F

/-- The JavaScript `String.prototype.trim` whitespace set: WhiteSpace
(tab, VT, FF, space, NBSP, BOM and the Zs space separators) together
with the LineTerminator characters (LF, CR, LS, PS). -/
def jsWhitespaceChar (c : Char) : Bool :=
  c = ' ' || c = '\t' || c = '\n' || c = '\r' ||
  c.val = 0x0B || c.val = 0x0C || c.val = 0xA0 || c.val = 0x1680 ||
  (0x2000 ≤ c.val && c.val ≤ 0x200A) ||
  c.val = 0x2028 || c.val = 0x2029 || c.val = 0x202F || c.val = 0x205F ||
  c.val = 0x3000 || c.val = 0xFEFF

/-! ## String pipeline steps of `sanitizeInput` -/

/-- Model of JavaScript `trim()`: drop leading and trailing
whitespace. -/
def jsTrimList (l : List Char) : List Char :=
  ((l.dropWhile jsWhitespaceChar).reverse.dropWhile jsWhitespaceChar).reverse

/-- Model of `.replace(CONTROL_CHAR_REGEX, '')`. -/
def removeControlChars (l : List Char) : List Char :=
  l.filter (fun c => !controlChar c)

/-- Model of `.replace(/\r\n/g, '\n')`: each CRLF pair becomes a single
LF, scanning left to right. -/
def crlfToLf : List Char → List Char
  | [] => []
  | '\r' :: '\n' :: rest => '\n' :: crlfToLf rest
  | a :: rest => a :: crlfToLf rest

/-- Model of `.replace(/\r/g, '\n')`. -/
def crToLf (l : List Char) : List Char :=
  l.map (fun c => if c = '\r' then '\n' else c)

/-- Helper for `collapseNewlines`: `run` counts the LF characters
already emitted in the current run; once two have been emitted, any
further LF of the same run is dropped. -/
def collapseNewlinesAux : Nat → List Char → List Char
  | _, [] => []
  | run, '\n' :: rest =>
      if run ≥ 2 then collapseNewlinesAux run rest
      else '\n' :: collapseNewlinesAux (run + 1) rest
  | _, c :: rest => c :: collapseNewlinesAux 0 rest

/-- Model of `.replace(/\n{3,}/g, '\n\n')`: every maximal run of three
or more LF characters collapses to exactly two (runs of one or two LFs
are unchanged, and every longer run keeps exactly its first two LFs,
which is what the greedy global regex replacement produces). -/
def collapseNewlines (l : List Char) : List Char :=
  collapseNewlinesAux 0 l

/-- Steps 2–6 of `sanitizeInput`: trim, remove control characters,
normalize line endings, collapse newline runs, trim again. -/
def cleanPipeline (l : List Char) : List Char :=
  jsTrimList (collapseNewlines (crToLf (crlfToLf (removeControlChars (jsTrimList l)))))

/-- Mirror of the TypeScript `SanitizeResult` interface. -/
structure SanitizeResult where
  sanitizedText : String
  wasTruncated : Bool
  originalLength : Nat
  finalLength : Nat
  removedCharacters : Int
  deriving Repr, DecidableEq

/-- Embedding of `sanitizeInput` (sanitizeInput.ts).  The configured
`config.textProcessing.maxLength` is passed as a parameter, since the
source reads it from the environment. -/
def sanitizeInput (maxLength : Nat) (text : String) : SanitizeResult :=
  let originalLength := text.data.length
  let cleaned := cleanPipeline text.data
  let removedCharacters : Int := (originalLength : Int) - (cleaned.length : Int)
  if cleaned.length > maxLength then
    { sanitizedText := ⟨cleaned.take maxLength⟩
      wasTruncated := true
      originalLength := originalLength
      finalLength := (cleaned.take maxLength).length
      removedCharacters := removedCharacters }
  else
    { sanitizedText := ⟨cleaned⟩
      wasTruncated := false
      originalLength := originalLength
      finalLength := cleaned.length
      removedCharacters := removedCharacters }

/-! ## JSON value model (for parseDetectionResult.ts)

`JSON.parse` can only produce null, booleans, numbers, strings, arrays
and objects.  Numbers are modelled as `Int` (no claim depends on
fractional values); an object is an association list in source order,
where a duplicate key makes the later binding win, as in JavaScript. -/

inductive Json where
  | null
  | bool (b : Bool)
  | num (n : Int)
  | str (s : String)
  | arr (elems : List Json)
  | obj (fields : List (String × Json))
  deriving Repr

/-- Property read `value[key]` on a parsed JSON value: `none` models
JavaScript `undefined`.  Only objects have named properties; for a
duplicate key the later binding wins. -/
def jGet (j : Json) (key : String) : Option Json :=
  match j with
  | .obj fields => fields.foldl (fun acc kv => if kv.1 = key then some kv.2 else acc) none
  | _ => none

/-- JavaScript truthiness of a parsed JSON value. -/
def jTruthy : Json → Bool
  | .null => false
  | .bool b => b
  | .num n => n ≠ 0
  | .str s => s ≠ ""
  | .arr _ => true
  | .obj _ => true

/-- Model of JavaScript `trim()` on a `String`. -/
def jsTrim (s : String) : String :=
  ⟨jsTrimList s.data⟩

/-- ASCII-folding model of JavaScript `toLowerCase()` (the confidence
levels compared against are ASCII). -/
def jsToLower (s : String) : String :=
  ⟨s.data.map Char.toLower⟩

/-- Mirror of the TypeScript `AIIndicator` interface. -/
structure AIIndicator where
  type : String
  snippet : String
  explanation : String
  deriving Repr, DecidableEq

/-- Mirror of the TypeScript `DetectionResult` interface; the
three-valued confidence union type is modelled as its `String`
value. -/
structure DetectionResult where
  aiFlag : Bool
  confidence : String
  categoriesFound : List String
  indicators : List AIIndicator
  reasoning : String
  deriving Repr, DecidableEq

/-- How an invocation of `parseDetectionResult` can fail: the two
deliberate `throw new Error(...)` sites (JSON parse failure, missing or
non-boolean `aiFlag`) are `malformedReply`; a `TypeError` raised by
calling a string method on a non-string value is `typeError`. -/
inductive JsErr where
  | malformedReply
  | typeError
  deriving Repr, DecidableEq

/-- Step 3 of `parseDetectionResult`: `if (parsed.confidence)` guards a
`parsed.confidence.toLowerCase()` call, so a truthy non-string
confidence raises a `TypeError`; a lowercased string is kept when it is
one of the valid levels, otherwise the default `"medium"` is used. -/
def normalizeConfidence (v : Option Json) : Except JsErr String :=
  match v with
  | none => .ok "medium"
  | some c =>
    if jTruthy c then
      match c with
      | .str s =>
        let normalized := jsToLower s
        if ["low", "medium", "high"].contains normalized then .ok normalized
        else .ok "medium"
      | _ => .error .typeError
    else .ok "medium"

/-- Step 4 of `parseDetectionResult`: keep only string entries, trim
each, drop entries that are empty after trimming; a missing, falsy or
non-array value yields the empty list. -/
def normalizeCategories (v : Option Json) : List String :=
  match v with
  | none => []
  | some c =>
    if jTruthy c then
      match c with
      | .arr elems =>
        ((elems.filterMap fun j => match j with | .str s => some s | _ => none).map
          jsTrim).filter (fun s => s.length > 0)
      | _ => []
    else []

/-- The filter of step 5: `ind && typeof ind.type === 'string' &&
ind.type.trim().length > 0`. -/
def indicatorKeep (ind : Json) : Bool :=
  jTruthy ind &&
    (match jGet ind "type" with
     | some (.str t) => (jsTrim t).length > 0
     | _ => false)

/-- Model of `x?.trim() || ''` on a property value: absent or null
yields `''`, a string is trimmed (an all-whitespace string falls back
to `''`, which is the same value), and any other value raises a
`TypeError` because `.trim` is not a function on it. -/
def normalizeOptionalString (v : Option Json) : Except JsErr String :=
  match v with
  | none => .ok ""
  | some .null => .ok ""
  | some (.str s) => .ok (jsTrim s)
  | some _ => .error .typeError

/-- The map of step 5: build an `AIIndicator` from a kept entry. -/
def normalizeIndicator (ind : Json) : Except JsErr AIIndicator := do
  let type := match jGet ind "type" with
    | some (.str t) => jsTrim t
    | _ => ""
  let snippet ← normalizeOptionalString (jGet ind "snippet")
  let explanation ← normalizeOptionalString (jGet ind "explanation")
  .ok { type := type, snippet := snippet, explanation := explanation }

/-- Step 5 of `parseDetectionResult`: filter then map; a missing, falsy
or non-array value yields the empty list. -/
def normalizeIndicators (v : Option Json) : Except JsErr (List AIIndicator) :=
  match v with
  | none => .ok []
  | some c =>
    if jTruthy c then
      match c with
      | .arr elems => (elems.filter indicatorKeep).mapM normalizeIndicator
      | _ => .ok []
    else .ok []

/-- Step 6 of `parseDetectionResult`. -/
def normalizeReasoning (v : Option Json) : String :=
  match v with
  | some (.str s) => if (jsTrim s).length > 0 then jsTrim s else "No reasoning provided"
  | _ => "No reasoning provided"

/-- Embedding of `parseDetectionResult` (parseDetectionResult.ts).  The
input is the outcome of `JSON.parse` on the raw response text: `none`
when the text is not valid JSON (the `catch` branch rethrows as the
malformed-reply error), `some j` for the parsed value.  Reading
`parsed.aiFlag` off a top-level JSON `null` raises a `TypeError`. -/
def parseDetectionResult (parseOutcome : Option Json) : Except JsErr DetectionResult :=
  match parseOutcome with
  | none => .error .malformedReply
  | some .null => .error .typeError
  | some parsed =>
    match jGet parsed "aiFlag" with
    | some (.bool aiFlag) => do
      let confidence ← normalizeConfidence (jGet parsed "confidence")
      let categoriesFound := normalizeCategories (jGet parsed "categoriesFound")
      let indicators ← normalizeIndicators (jGet parsed "indicators")
      let reasoning := normalizeReasoning (jGet parsed "reasoning")
      .ok { aiFlag := aiFlag, confidence := confidence,
            categoriesFound := categoriesFound, indicators := indicators,
            reasoning := reasoning }
    | _ => .error .malformedReply

/-- Embedding of `createErrorResult` (parseDetectionResult.ts). -/
def createErrorResult (errorMessage : String) : DetectionResult :=
  { aiFlag := false
    confidence := "low"
    categoriesFound := []
    indicators := []
    reasoning := "Error during analysis: " ++ errorMessage }

/-- Embedding of `createNotificationMessage` (parseDetectionResult.ts). -/
def createNotificationMessage (result : DetectionResult) : String :=
  if !result.aiFlag then
    "No AI-generated patterns detected."
  else
    let categoryCount := result.categoriesFound.length
    let indicatorCount := result.indicators.length
    let message := "⚠️ Possible AI-generated content detected (" ++
      result.confidence ++ " confidence)"
    let message := if categoryCount > 0 then
        message ++ "\n\nCategories found: " ++ String.intercalate ", " result.categoriesFound
      else message
    let message := if indicatorCount > 0 then
        message ++ "\n\n" ++ toString indicatorCount ++ " specific indicator" ++
          (if indicatorCount > 1 then "s" else "") ++ " identified."
      else message
    let message := if result.reasoning ≠ "" ∧ result.reasoning ≠ "No reasoning provided" then
        let reasoning := if result.reasoning.length > 150 then
            ⟨result.reasoning.data.take 150⟩ ++ "..."
          else result.reasoning
        message ++ "\n\n" ++ reasoning
      else message
    message

/-! ## Rate limiter (rateLimit.ts)

Timestamps (`Date.now()`) and counters are JavaScript numbers, modelled
as `Int`.  The `Map<string, RateLimitEntry>` is modelled as an
association list in insertion order with unique keys; in-place mutation
of an entry becomes replacement of its binding.  `config.rateLimit` is
passed as an explicit parameter, since the source reads it from the
environment. -/

/-- Mirror of the TypeScript `RateLimitEntry` interface. -/
structure RateLimitEntry where
  count : Int
  windowStart : Int
  deriving Repr, DecidableEq

/-- Mirror of the TypeScript `RateLimitResult` interface. -/
structure RateLimitResult where
  allowed : Bool
  remaining : Int
  resetTime : Int
  retryAfter : Option Int
  deriving Repr, DecidableEq

/-- The part of `config` the rate limiter reads.
`windowDurationMs` is `config.rateLimit.windowMinutes * 60 * 1000`. -/
structure RateLimitConfig where
  maxRequests : Int
  windowDurationMs : Int
  deriving Repr, DecidableEq

/-- The in-memory `rateLimitStore` map, as an insertion-ordered
association list. -/
abbrev RateLimitStore := List (String × RateLimitEntry)

/-- `rateLimitStore.get(ip)`. -/
def storeGet (store : RateLimitStore) (ip : String) : Option RateLimitEntry :=
  (store.find? (fun p => p.1 = ip)).map (fun p => p.2)

/-- Updating the binding of `ip` (JavaScript `Map.set` keeps the
position of an existing key and appends a new key at the end; mutating
a retrieved entry in place has the same effect as re-setting it). -/
def storeSet : RateLimitStore → String → RateLimitEntry → RateLimitStore
  | [], ip, e => [(ip, e)]
  | p :: rest, ip, e => if p.1 = ip then (ip, e) :: rest else p :: storeSet rest ip e

/-- `Math.ceil(a / b)` on integer operands, for `b > 0`. -/
def ceilDiv (a b : Int) : Int :=
  Int.ediv (a + b - 1) b

/-- Embedding of `checkRateLimit` (rateLimit.ts): returns the
`RateLimitResult` and the store after the call. -/
def checkRateLimit (cfg : RateLimitConfig) (now : Int) (store : RateLimitStore)
    (ipAddress : String) : RateLimitResult × RateLimitStore :=
  let windowDuration := cfg.windowDurationMs
  let entry : RateLimitEntry :=
    match storeGet store ipAddress with
    | none => { count := 0, windowStart := now }
    | some e =>
      if now - e.windowStart ≥ windowDuration then { count := 0, windowStart := now }
      else e
  let maxRequests := cfg.maxRequests
  let allowed := entry.count < maxRequests
  let entry := if allowed then { entry with count := entry.count + 1 } else entry
  let remaining := max 0 (maxRequests - entry.count)
  let resetTime := entry.windowStart + windowDuration
  let retryAfter : Option Int :=
    if allowed then none else some (ceilDiv (resetTime - now) 1000)
  ({ allowed := allowed, remaining := remaining, resetTime := resetTime,
     retryAfter := retryAfter },
   storeSet store ipAddress entry)

/-- Embedding of `getRateLimitStatus` (rateLimit.ts): reads the store
without writing to it. -/
def getRateLimitStatus (cfg : RateLimitConfig) (now : Int) (store : RateLimitStore)
    (ipAddress : String) : RateLimitResult :=
  let windowDuration := cfg.windowDurationMs
  match storeGet store ipAddress with
  | none =>
    { allowed := true, remaining := cfg.maxRequests,
      resetTime := now + windowDuration, retryAfter := none }
  | some entry =>
    if now - entry.windowStart ≥ windowDuration then
      { allowed := true, remaining := cfg.maxRequests,
        resetTime := now + windowDuration, retryAfter := none }
    else
      let maxRequests := cfg.maxRequests
      let allowed := entry.count < maxRequests
      let remaining := max 0 (maxRequests - entry.count)
      let resetTime := entry.windowStart + windowDuration
      let retryAfter : Option Int :=
        if allowed then none else some (ceilDiv (resetTime - now) 1000)
      { allowed := allowed, remaining := remaining, resetTime := resetTime,
        retryAfter := retryAfter }

/-- Embedding of `resetRateLimit` (rateLimit.ts): `Map.delete`,
reporting whether the key existed. -/
def resetRateLimit (store : RateLimitStore) (ipAddress : String) :
    Bool × RateLimitStore :=
  (store.any (fun p => p.1 = ipAddress), store.filter (fun p => p.1 ≠ ipAddress))

/-- Embedding of `clearAllRateLimits` (rateLimit.ts). -/
def clearAllRateLimits : RateLimitStore := []

/-- Embedding of `cleanupExpiredEntries` (rateLimit.ts): removes every
entry whose window has expired, returning the removed count. -/
def cleanupExpiredEntries (cfg : RateLimitConfig) (now : Int) (store : RateLimitStore) :
    Nat × RateLimitStore :=
  let windowDuration := cfg.windowDurationMs
  let removed := store.filter (fun p => now - p.2.windowStart ≥ windowDuration)
  (removed.length, store.filter (fun p => ¬(now - p.2.windowStart ≥ windowDuration)))

/-- One observable operation on the rate limiter module, with the
`Date.now()` value an operation observes made explicit. -/
inductive RateLimitOp where
  | check (ipAddress : String) (now : Int)
  | status (ipAddress : String) (now : Int)
  | reset (ipAddress : String)
  | clearAll
  | cleanup (now : Int)
  deriving Repr, DecidableEq

/-- The store after one operation. -/
def runOp (cfg : RateLimitConfig) (store : RateLimitStore) : RateLimitOp → RateLimitStore
  | .check ipAddress now => (checkRateLimit cfg now store ipAddress).2
  | .status ipAddress now =>
      let _ := getRateLimitStatus cfg now store ipAddress
      store
  | .reset ipAddress => (resetRateLimit store ipAddress).2
  | .clearAll => clearAllRateLimits
  | .cleanup now => (cleanupExpiredEntries cfg now store).2

/-- The store after a sequence of operations. -/
def runOps (cfg : RateLimitConfig) (store : RateLimitStore)
    (ops : List RateLimitOp) : RateLimitStore :=
  ops.foldl (runOp cfg) store

/-- The results of the `checkRateLimit` calls in a sequence of
operations, in order, together with the final store. -/
def runOpsResults (cfg : RateLimitConfig) (store : RateLimitStore) :
    List RateLimitOp → RateLimitStore × List RateLimitResult
  | [] => (store, [])
  | .check ipAddress now :: rest =>
      ((runOpsResults cfg (checkRateLimit cfg now store ipAddress).2 rest).1,
       (checkRateLimit cfg now store ipAddress).1 ::
         (runOpsResults cfg (checkRateLimit cfg now store ipAddress).2 rest).2)
  | op :: rest => runOpsResults cfg (runOp cfg store op) rest

/-- Whether an operation is a read-only status query (`peek`). -/
def RateLimitOp.isStatus : RateLimitOp → Bool
  | .status _ _ => true
  | _ => false

/-! ## IP extraction (`extractIPAddress`, rateLimit.ts) -/

/-- A header value of a Node request: `string | string[]` (absence is
modelled by `Option` at the lookup). -/
inductive HeaderValue where
  | str (s : String)
  | arr (elems : List String)
  deriving Repr, DecidableEq

/-- The headers object, as an association list (first binding wins, as
for JavaScript object keys after parsing). -/
abbrev Headers := List (String × HeaderValue)

/-- `headers[name]`. -/
def headersGet (headers : Headers) (name : String) : Option HeaderValue :=
  (headers.find? (fun p => p.1 = name)).map (fun p => p.2)

/-- JavaScript truthiness of a header value: the empty string is falsy,
every array (even empty) is truthy. -/
def hvTruthy : HeaderValue → Bool
  | .str s => s ≠ ""
  | .arr _ => true

/-- The `if (Array.isArray(ip)) ip = ip[0]` step: for an array the
first element is taken and may be `undefined` (`none`). -/
def hvFirst : HeaderValue → Option String
  | .str s => some s
  | .arr elems => elems.head?

/-- `headers[name]` when present and truthy, else `none`. -/
def truthyHeader (headers : Headers) (name : String) : Option HeaderValue :=
  match headersGet headers name with
  | some v => if hvTruthy v then some v else none
  | none => none

/-- `s.split(',')[0]`. -/
def splitCommaFirst (s : String) : String :=
  ⟨s.data.takeWhile (fun c => c ≠ ',')⟩

/-- Embedding of `extractIPAddress` (rateLimit.ts).  `.error ()` models
the `TypeError` raised when a truthy array header is empty, so that
`ip[0]` is `undefined` and `.split` / `.trim` is called on it. -/
def extractIPAddress (headers : Headers) : Except Unit String :=
  match truthyHeader headers "x-forwarded-for" with
  | some v =>
    match hvFirst v with
    | some s => .ok (jsTrim (splitCommaFirst s))
    | none => .error ()
  | none =>
  match truthyHeader headers "x-real-ip" with
  | some v =>
    match hvFirst v with
    | some s => .ok (jsTrim s)
    | none => .error ()
  | none =>
  match truthyHeader headers "cf-connecting-ip" with
  | some v =>
    match hvFirst v with
    | some s => .ok (jsTrim s)
    | none => .error ()
  | none =>
  match truthyHeader headers "x-client-ip" with
  | some v =>
    match hvFirst v with
    | some s => .ok (jsTrim s)
    | none => .error ()
  | none => .ok "unknown"

/-! ## Derived predicates used by the theorems below -/

/-- Whether a list contains three consecutive LF characters. -/
def hasTriple : List Char → Bool
  | a :: b :: c :: rest => (a = '\n' && b = '\n' && c = '\n') || hasTriple (b :: c :: rest)
  | _ => false

/-- The number of leading LF characters. -/
def leadNlCount : List Char → Nat
  | '\n' :: rest => leadNlCount rest + 1
  | _ => 0

/-- The entry stored for the checked identifier after one
`checkRateLimit` call, as a function of the looked-up entry. -/
def nextEntry (cfg : RateLimitConfig) (now : Int) (looked : Option RateLimitEntry) :
    RateLimitEntry :=
  let entry : RateLimitEntry :=
    match looked with
    | none => { count := 0, windowStart := now }
    | some e =>
      if now - e.windowStart ≥ cfg.windowDurationMs then { count := 0, windowStart := now }
      else e
  if entry.count < cfg.maxRequests then { entry with count := entry.count + 1 } else entry

/-- Whether a header binding cannot send `extractIPAddress` into the
empty-array `TypeError` branch. -/
def ipHeaderOk (headers : Headers) (name : String) : Bool :=
  match headersGet headers name with
  | some (.arr []) => false
  | _ => true

end SendSafe

namespace SendSafe

/-! ### Character-membership lemmas for the cleaning pipeline -/

theorem mem_crlfToLf {c : Char} : ∀ {l : List Char}, c ∈ crlfToLf l → c ∈ l ∨ c = '\n' := by
  intro l
  induction l using crlfToLf.induct with
  | case1 => simp [crlfToLf]
  | case2 rest ih =>
    simp only [crlfToLf, List.mem_cons]
    rintro (h | h)
    · right; exact h
    · rcases ih h with h' | h'
      · left; simp [h']
      · right; exact h'
  | case3 a rest h ih =>
    simp only [crlfToLf, List.mem_cons]
    rintro (h' | h')
    · left; simp [h']
    · rcases ih h' with h'' | h''
      · left; simp [h'']
      · right; exact h''

theorem mem_crToLf {c : Char} {l : List Char} (h : c ∈ crToLf l) : c ∈ l ∨ c = '\n' := by
  simp only [crToLf, List.mem_map] at h
  obtain ⟨a, ha, rfl⟩ := h
  by_cases hr : a = '\r' <;> simp [hr, ha]

theorem crToLf_no_cr {c : Char} {l : List Char} (h : c ∈ crToLf l) : c ≠ '\r' := by
  simp only [crToLf, List.mem_map] at h
  obtain ⟨a, ha, rfl⟩ := h
  by_cases hr : a = '\r' <;> simp [hr]

theorem mem_collapseNewlinesAux {c : Char} :
    ∀ {run : Nat} {l : List Char}, c ∈ collapseNewlinesAux run l → c ∈ l := by
  intro run l
  induction run, l using collapseNewlinesAux.induct with
  | case1 => simp [collapseNewlinesAux]
  | case2 run rest hrun ih =>
    simp only [collapseNewlinesAux, if_pos hrun]
    intro h
    exact List.mem_cons_of_mem _ (ih h)
  | case3 run rest hrun ih =>
    simp only [collapseNewlinesAux, if_neg hrun, List.mem_cons]
    rintro (h | h)
    · left; exact h
    · right; exact ih h
  | case4 run a rest hne ih =>
    simp only [collapseNewlinesAux, List.mem_cons]
    rintro (h | h)
    · left; exact h
    · right; exact ih h

theorem mem_jsTrimList {c : Char} {l : List Char} (h : c ∈ jsTrimList l) : c ∈ l := by
  simp only [jsTrimList, List.mem_reverse] at h
  have h1 := (List.dropWhile_sublist (l := (l.dropWhile jsWhitespaceChar).reverse)
    (p := jsWhitespaceChar)).mem h
  rw [List.mem_reverse] at h1
  exact (List.dropWhile_sublist (l := l) (p := jsWhitespaceChar)).mem h1

end SendSafe

namespace SendSafe

/-! ### Trim lemmas -/

theorem head?_dropWhile_false {p : Char → Bool} {l : List Char} {c : Char}
    (h : (l.dropWhile p).head? = some c) : p c = false := by
  have h' := List.head?_dropWhile_not p l
  rw [h] at h'
  simpa using h'

theorem dropWhile_eq_self_of_head {p : Char → Bool} {l : List Char}
    (h : ∀ c, l.head? = some c → p c = false) : l.dropWhile p = l := by
  cases l with
  | nil => rfl
  | cons a t =>
    rw [List.dropWhile_cons_of_neg]
    simp [h a rfl]

theorem getLast?_dropWhile_of_some {p : Char → Bool} {l : List Char} {c : Char}
    (h : (l.dropWhile p).getLast? = some c) : l.getLast? = some c := by
  obtain ⟨t, ht⟩ := List.dropWhile_suffix p (l := l)
  cases hd : l.dropWhile p with
  | nil => rw [hd] at h; simp at h
  | cons a r =>
    rw [← ht, List.getLast?_append_of_ne_nil, h]
    rw [hd]
    simp

theorem jsTrimList_head_not_ws {l : List Char} {c : Char}
    (h : (jsTrimList l).head? = some c) : jsWhitespaceChar c = false := by
  rw [jsTrimList, List.head?_reverse] at h
  have h₁ := getLast?_dropWhile_of_some h
  rw [List.getLast?_reverse] at h₁
  exact head?_dropWhile_false h₁

theorem jsTrimList_getLast_not_ws {l : List Char} {c : Char}
    (h : (jsTrimList l).getLast? = some c) : jsWhitespaceChar c = false := by
  rw [jsTrimList, List.getLast?_reverse] at h
  exact head?_dropWhile_false h

theorem jsTrimList_eq_self {l : List Char}
    (h1 : ∀ c, l.head? = some c → jsWhitespaceChar c = false)
    (h2 : ∀ c, l.getLast? = some c → jsWhitespaceChar c = false) :
    jsTrimList l = l := by
  rw [jsTrimList, dropWhile_eq_self_of_head h1, dropWhile_eq_self_of_head, List.reverse_reverse]
  intro c hc
  rw [List.head?_reverse] at hc
  exact h2 c hc

theorem jsTrimList_idem (l : List Char) : jsTrimList (jsTrimList l) = jsTrimList l :=
  jsTrimList_eq_self (fun _ h => jsTrimList_head_not_ws h)
    (fun _ h => jsTrimList_getLast_not_ws h)

end SendSafe

namespace SendSafe

/-! ### Newline-run lemmas -/

theorem hasTriple_tail {a : Char} {t : List Char} (h : hasTriple (a :: t) = false) :
    hasTriple t = false := by
  match t with
  | [] => simp [hasTriple]
  | [b] => simp [hasTriple]
  | b :: c :: r => simp [hasTriple] at h ⊢; tauto

theorem leadNlCount_cons_nl {rest : List Char} :
    leadNlCount ('\n' :: rest) = leadNlCount rest + 1 := by
  simp [leadNlCount]

theorem leadNlCount_cons_ne {a : Char} {rest : List Char} (h : ¬a = '\n') :
    leadNlCount (a :: rest) = 0 := by
  rw [leadNlCount.eq_def]
  split <;> simp_all

theorem hasTriple_cons_of {a : Char} {t : List Char} (h : hasTriple t = false)
    (hlead : a = '\n' → leadNlCount t ≤ 1) : hasTriple (a :: t) = false := by
  match t with
  | [] => simp [hasTriple]
  | [b] => simp [hasTriple]
  | b :: c :: r =>
    simp only [hasTriple] at h ⊢
    rw [h]
    simp only [Bool.or_false]
    by_cases ha : a = '\n'
    · have hl := hlead ha
      by_cases hb : b = '\n'
      · subst hb
        rw [leadNlCount_cons_nl] at hl
        by_cases hc : c = '\n'
        · subst hc
          rw [leadNlCount_cons_nl] at hl
          omega
        · simp [hc]
      · simp [hb]
    · simp [ha]

theorem hasTriple_head_lead {rest : List Char} (h : hasTriple ('\n' :: rest) = false) :
    leadNlCount rest ≤ 1 := by
  match rest with
  | [] => simp [leadNlCount]
  | [b] =>
    by_cases hb : b = '\n'
    · subst hb
      rw [leadNlCount_cons_nl]
      simp [leadNlCount]
    · simp [leadNlCount_cons_ne hb]
  | b :: c :: r =>
    by_cases hb : b = '\n'
    · subst hb
      by_cases hc : c = '\n'
      · exfalso
        subst hc
        simp [hasTriple] at h
    
      · rw [leadNlCount_cons_nl, leadNlCount_cons_ne hc]
    · simp [leadNlCount_cons_ne hb]

theorem hasTriple_append_right {d : List Char} :
    ∀ {t : List Char}, hasTriple (t ++ d) = false → hasTriple d = false := by
  intro t
  induction t with
  | nil => intro h; simpa using h
  | cons a t ih =>
    intro h
    exact ih (hasTriple_tail h)

theorem hasTriple_append_left {t : List Char} :
    ∀ {d : List Char}, hasTriple (d ++ t) = false → hasTriple d = false := by
  intro d
  induction d using hasTriple.induct with
  | case1 a b c r ih =>
    intro h
    simp only [List.cons_append, hasTriple] at h ⊢
    simp only [Bool.or_eq_false_iff] at h ⊢
    refine ⟨h.1, ih ?_⟩
    simpa using h.2
  | case2 d hd =>
    intro _
    cases d with
    | nil => simp [hasTriple]
    | cons a d' =>
      cases d' with
      | nil => simp [hasTriple]
      | cons b d'' =>
        cases d'' with
        | nil => simp [hasTriple]
        | cons c r => exact (hd a b c r rfl).elim

theorem hasTriple_jsTrimList {l : List Char} (h : hasTriple l = false) :
    hasTriple (jsTrimList l) = false := by
  obtain ⟨t, ht⟩ := List.dropWhile_suffix jsWhitespaceChar (l := l)
  have hA : hasTriple (l.dropWhile jsWhitespaceChar) = false :=
    hasTriple_append_right (ht ▸ h)
  obtain ⟨u, hu⟩ :=
    List.dropWhile_suffix jsWhitespaceChar (l := (l.dropWhile jsWhitespaceChar).reverse)
  have hA' : l.dropWhile jsWhitespaceChar = jsTrimList l ++ u.reverse := by
    have h' := congrArg List.reverse hu
    simpa [jsTrimList, List.reverse_append] using h'.symm
  exact hasTriple_append_left (hA' ▸ hA)

end SendSafe

namespace SendSafe

/-! ### The collapse step produces no triple newline and fixes clean text -/

theorem collapseNewlinesAux_nil (run : Nat) : collapseNewlinesAux run [] = [] := rfl

theorem collapseNewlinesAux_nl_ge {run : Nat} (rest : List Char) (h : run ≥ 2) :
    collapseNewlinesAux run ('\n' :: rest) = collapseNewlinesAux run rest := by
  rw [collapseNewlinesAux, if_pos h]

theorem collapseNewlinesAux_nl_lt {run : Nat} (rest : List Char) (h : ¬run ≥ 2) :
    collapseNewlinesAux run ('\n' :: rest) = '\n' :: collapseNewlinesAux (run + 1) rest := by
  rw [collapseNewlinesAux, if_neg h]

theorem collapseNewlinesAux_cons_ne {c : Char} {run : Nat} (rest : List Char)
    (h : ¬c = '\n') : collapseNewlinesAux run (c :: rest) = c :: collapseNewlinesAux 0 rest := by
  rw [collapseNewlinesAux.eq_def]
  split <;> simp_all

theorem collapseNewlinesAux_spec :
    ∀ (run : Nat) (l : List Char),
      hasTriple (collapseNewlinesAux run l) = false ∧
        leadNlCount (collapseNewlinesAux run l) + min run 2 ≤ 2 := by
  intro run l
  induction run, l using collapseNewlinesAux.induct with
  | case1 run =>
    simp [collapseNewlinesAux_nil, hasTriple, leadNlCount]
  | case2 run rest hrun ih =>
    rw [collapseNewlinesAux_nl_ge rest hrun]
    exact ih
  | case3 run rest hrun ih =>
    rw [collapseNewlinesAux_nl_lt rest hrun]
    constructor
    · refine hasTriple_cons_of ih.1 (fun _ => ?_)
      have h2 := ih.2
      omega
    · rw [leadNlCount_cons_nl]
      have h2 := ih.2
      omega
  | case4 run c rest hne ih =>
    rw [collapseNewlinesAux_cons_ne rest (fun h => hne h)]
    constructor
    · exact hasTriple_cons_of ih.1 (fun h => (hne h).elim)
    · rw [leadNlCount_cons_ne (fun h => hne h)]
      omega

theorem hasTriple_collapseNewlines (l : List Char) :
    hasTriple (collapseNewlines l) = false :=
  (collapseNewlinesAux_spec 0 l).1

theorem collapseNewlinesAux_eq_self :
    ∀ (run : Nat) (l : List Char), hasTriple l = false →
      (2 ≤ run → leadNlCount l = 0) → (run = 1 → leadNlCount l ≤ 1) →
      collapseNewlinesAux run l = l := by
  intro run l
  induction run, l using collapseNewlinesAux.induct with
  | case1 run => intro _ _ _; rfl
  | case2 run rest hrun ih =>
    intro _ hge _
    exfalso
    have := hge hrun
    rw [leadNlCount_cons_nl] at this
    omega
  | case3 run rest hrun ih =>
    intro ht hge h1
    rw [collapseNewlinesAux_nl_lt rest hrun]
    have htr : hasTriple rest = false := hasTriple_tail ht
    have hlead : leadNlCount rest ≤ 1 := hasTriple_head_lead ht
    rcases Nat.lt_or_ge run 1 with hr | hr
    · have hrun0 : run = 0 := by omega
      rw [ih htr (by omega) (by intro h; omega)]
    · have hrun1 : run = 1 := by omega
      subst hrun1
      have : leadNlCount ('\n' :: rest) ≤ 1 := h1 rfl
      rw [leadNlCount_cons_nl] at this
      rw [ih htr (by intro _; omega) (by intro h; omega)]
  | case4 run c rest hne ih =>
    intro ht _ _
    rw [collapseNewlinesAux_cons_ne rest (fun h => hne h)]
    rw [ih (hasTriple_tail ht) (by intro h; omega) (by intro h; omega)]

theorem collapseNewlines_eq_self {l : List Char} (h : hasTriple l = false) :
    collapseNewlines l = l :=
  collapseNewlinesAux_eq_self 0 l h (by omega) (by omega)

/-! ### Line-ending steps fix text without carriage returns -/

theorem crlfToLf_cons_ne {a : Char} (rest : List Char) (h : ¬a = '\r') :
    crlfToLf (a :: rest) = a :: crlfToLf rest := by
  rw [crlfToLf.eq_def]
  split
  · next heq => simp at heq
  · next r heq =>
    rw [List.cons_eq_cons] at heq
    exact absurd heq.1 h
  · next a' rest' hcond heq =>
    obtain ⟨h1, h2⟩ := List.cons_eq_cons.mp heq
    subst h1
    subst h2
    rfl

theorem crlfToLf_eq_self : ∀ {l : List Char}, (∀ c ∈ l, c ≠ '\r') → crlfToLf l = l := by
  intro l
  induction l with
  | nil => intro _; rfl
  | cons a rest ih =>
    intro h
    have ha : ¬a = '\r' := h a (by simp)
    rw [crlfToLf_cons_ne rest ha, ih (fun c hc => h c (List.mem_cons_of_mem a hc))]

theorem crToLf_eq_self {l : List Char} (h : ∀ c ∈ l, c ≠ '\r') : crToLf l = l := by
  rw [crToLf]
  conv_rhs => rw [← List.map_id l]
  refine List.map_congr_left ?_
  intro c hc
  simp [h c hc]

theorem removeControlChars_eq_self {l : List Char} (h : ∀ c ∈ l, controlChar c = false) :
    removeControlChars l = l := by
  rw [removeControlChars]
  refine List.filter_eq_self.mpr ?_
  intro c hc
  simp [h c hc]

end SendSafe

namespace SendSafe

/-! ### Facts about the cleaned text -/

theorem mem_collapseNewlines {c : Char} {l : List Char} (h : c ∈ collapseNewlines l) :
    c ∈ l :=
  mem_collapseNewlinesAux (by simpa [collapseNewlines] using h)

theorem cleanPipeline_no_ctrl {l : List Char} :
    ∀ c ∈ cleanPipeline l, controlChar c = false := by
  intro c hc
  rw [cleanPipeline] at hc
  have h1 := mem_jsTrimList hc
  have h2 := mem_collapseNewlines h1
  rcases mem_crToLf h2 with h3 | h3
  · rcases mem_crlfToLf h3 with h4 | h4
    · rw [removeControlChars] at h4
      have h5 := List.mem_filter.mp h4
      simpa using h5.2
    · subst h4; decide
  · subst h3; decide

theorem cleanPipeline_no_cr {l : List Char} : ∀ c ∈ cleanPipeline l, c ≠ '\r' := by
  intro c hc
  rw [cleanPipeline] at hc
  exact crToLf_no_cr (mem_collapseNewlines (mem_jsTrimList hc))

theorem cleanPipeline_no_triple (l : List Char) : hasTriple (cleanPipeline l) = false := by
  rw [cleanPipeline]
  exact hasTriple_jsTrimList (hasTriple_collapseNewlines _)

/-- Steps 2–6 of `sanitizeInput` are idempotent: cleaning already-clean
text changes nothing. -/
theorem cleanPipeline_idem (l : List Char) :
    cleanPipeline (cleanPipeline l) = cleanPipeline l := by
  have h1 : jsTrimList (cleanPipeline l) = cleanPipeline l := by
    rw [cleanPipeline]
    exact jsTrimList_idem _
  conv_lhs => rw [cleanPipeline]
  rw [h1]
  rw [removeControlChars_eq_self cleanPipeline_no_ctrl]
  rw [crlfToLf_eq_self cleanPipeline_no_cr]
  rw [crToLf_eq_self cleanPipeline_no_cr]
  rw [collapseNewlines_eq_self (cleanPipeline_no_triple l)]
  exact h1

end SendSafe

namespace SendSafe

/-- C2 (counterexample).  The idempotence claim quantified over all
inputs fails once truncation is involved: with configured
`maxLength = 3`, the input `"ab c"` cleans to itself (length 4), is
truncated to `"ab "`, and the second `sanitizeInput` pass trims the
trailing space, changing the text and removing one character. -/
theorem sanitize_not_idempotent_after_truncation :
    (sanitizeInput 3 ((sanitizeInput 3 "ab c").sanitizedText)).sanitizedText ≠
      (sanitizeInput 3 "ab c").sanitizedText ∧
    (sanitizeInput 3 "ab c").wasTruncated = true ∧
    (sanitizeInput 3 ((sanitizeInput 3 "ab c").sanitizedText)).removedCharacters ≠ 0 := by
  decide

/-- C2 (amended).  `sanitizeInput` is idempotent on its text output for
every input whose first pass does not truncate: re-sanitizing the
sanitized text returns it unchanged and reports zero removed
characters. -/
theorem sanitize_idempotent_when_not_truncated (maxLength : Nat) (text : String)
    (h : (sanitizeInput maxLength text).wasTruncated = false) :
    (sanitizeInput maxLength ((sanitizeInput maxLength text).sanitizedText)).sanitizedText =
      (sanitizeInput maxLength text).sanitizedText ∧
    (sanitizeInput maxLength ((sanitizeInput maxLength text).sanitizedText)).removedCharacters
      = 0 := by
  by_cases hlen : (cleanPipeline text.data).length > maxLength
  · exfalso
    simp [sanitizeInput, if_pos hlen] at h
  · have hfst : (sanitizeInput maxLength text).sanitizedText = ⟨cleanPipeline text.data⟩ := by
      simp [sanitizeInput, if_neg hlen]
    rw [hfst]
    have hdata : (String.mk (cleanPipeline text.data)).data = cleanPipeline text.data := rfl
    have hidem := cleanPipeline_idem text.data
    constructor
    · simp only [sanitizeInput, hdata, hidem, if_neg hlen]
    · simp only [sanitizeInput, hdata, hidem, if_neg hlen]
      omega

/-- C6.  The truncation flag is set exactly when the cleaned text is
longer than the configured maximum, `finalLength` is the truncated
length in that case and the cleaned length otherwise, and
`removedCharacters` is always the original length minus the cleaned
length measured before truncation. -/
theorem sanitize_truncation_flag_and_counts (maxLength : Nat) (text : String) :
    ((sanitizeInput maxLength text).wasTruncated = true ↔
      maxLength < (cleanPipeline text.data).length) ∧
    (sanitizeInput maxLength text).finalLength =
      (if maxLength < (cleanPipeline text.data).length then maxLength
       else (cleanPipeline text.data).length) ∧
    (sanitizeInput maxLength text).removedCharacters =
      (text.data.length : Int) - ((cleanPipeline text.data).length : Int) ∧
    (sanitizeInput maxLength text).originalLength = text.data.length := by
  by_cases hlen : (cleanPipeline text.data).length > maxLength
  · have h1 : (sanitizeInput maxLength text).wasTruncated = true := by
      simp [sanitizeInput, if_pos hlen]
    have h2 : (sanitizeInput maxLength text).finalLength = maxLength := by
      simp [sanitizeInput, if_pos hlen, List.length_take]
      omega
    have h3 : (sanitizeInput maxLength text).removedCharacters =
        (text.data.length : Int) - ((cleanPipeline text.data).length : Int) := by
      simp [sanitizeInput, if_pos hlen]
    have h4 : (sanitizeInput maxLength text).originalLength = text.data.length := by
      simp [sanitizeInput, if_pos hlen]
    rw [h1, h2, h3, h4]
    refine ⟨by simpa using hlen, ?_, rfl, rfl⟩
    rw [if_pos (by omega)]
  · have h1 : (sanitizeInput maxLength text).wasTruncated = false := by
      simp [sanitizeInput, if_neg hlen]
    have h2 : (sanitizeInput maxLength text).finalLength =
        (cleanPipeline text.data).length := by
      simp [sanitizeInput, if_neg hlen]
    have h3 : (sanitizeInput maxLength text).removedCharacters =
        (text.data.length : Int) - ((cleanPipeline text.data).length : Int) := by
      simp [sanitizeInput, if_neg hlen]
    have h4 : (sanitizeInput maxLength text).originalLength = text.data.length := by
      simp [sanitizeInput, if_neg hlen]
    rw [h1, h2, h3, h4]
    refine ⟨by constructor <;> (intro h'; exfalso; first | exact Bool.false_ne_true h' | omega), ?_, rfl, rfl⟩
    rw [if_neg (by omega)]

end SendSafe

namespace SendSafe

/-! ### Parser claim theorems -/

/-- C1 (failing input).  On the reply `{"aiFlag":true,"confidence":123}`
— valid JSON, boolean `aiFlag`, wrong-typed optional `confidence` — the
parser does not default the bad field: `123` is truthy, so the source
calls `parsed.confidence.toLowerCase()` on a number and raises a
`TypeError` instead of returning a `DetectionResult`. -/
theorem parse_throws_on_numeric_confidence :
    parseDetectionResult
        (some (.obj [("aiFlag", .bool true), ("confidence", .num 123)])) =
      .error .typeError := by
  rfl

/-- C7.  Category and indicator filtering: non-string and
empty-after-trim category entries are dropped with order preserved and
the rest trimmed, and an indicator without a `type` field is dropped
entirely while the kept one defaults its missing `explanation` to the
empty string. -/
theorem parse_filters_categories_and_indicators :
    parseDetectionResult
        (some (.obj [("aiFlag", .bool true),
          ("categoriesFound", .arr [.str "A", .str " B ", .num 7, .str ""]),
          ("indicators", .arr [.obj [("type", .str "X"), ("snippet", .str "s")],
                               .obj [("snippet", .str "no type")]])])) =
      .ok { aiFlag := true, confidence := "medium", categoriesFound := ["A", "B"],
            indicators := [{ type := "X", snippet := "s", explanation := "" }],
            reasoning := "No reasoning provided" } := by
  rfl

/-- C8.  Whenever `aiFlag` is false the formatter returns the fixed
sentence regardless of every other field, and the clean end-to-end
reply `{"aiFlag":false,"confidence":"high","categoriesFound":[],
"indicators":[],"reasoning":"clean"}` normalizes successfully and
formats to exactly that sentence. -/
theorem notification_fixed_sentence_when_flag_false :
    (∀ result : DetectionResult, result.aiFlag = false →
      createNotificationMessage result = "No AI-generated patterns detected.") ∧
    parseDetectionResult
        (some (.obj [("aiFlag", .bool false), ("confidence", .str "high"),
          ("categoriesFound", .arr []), ("indicators", .arr []),
          ("reasoning", .str "clean")])) =
      .ok { aiFlag := false, confidence := "high", categoriesFound := [],
            indicators := [], reasoning := "clean" } ∧
    createNotificationMessage
        { aiFlag := false, confidence := "high", categoriesFound := [],
          indicators := [], reasoning := "clean" } =
      "No AI-generated patterns detected." := by
  refine ⟨?_, by rfl, by rfl⟩
  intro result h
  rw [createNotificationMessage, h]
  rfl

/-- C8 (witness).  The fixed-sentence property applied at a concrete
result with a false flag. -/
theorem notification_fixed_sentence_when_flag_false_witness :
    createNotificationMessage
        { aiFlag := false, confidence := "low", categoriesFound := ["x"],
          indicators := [{ type := "t", snippet := "s", explanation := "e" }],
          reasoning := "free text" } =
      "No AI-generated patterns detected." :=
  notification_fixed_sentence_when_flag_false.1
    { aiFlag := false, confidence := "low", categoriesFound := ["x"],
      indicators := [{ type := "t", snippet := "s", explanation := "e" }],
      reasoning := "free text" } rfl

end SendSafe

namespace SendSafe

/-! ### Rate limiter store lemmas -/

theorem storeGet_storeSet_self (store : RateLimitStore) (ip : String) (e : RateLimitEntry) :
    storeGet (storeSet store ip e) ip = some e := by
  induction store with
  | nil => simp [storeSet, storeGet, List.find?]
  | cons p rest ih =>
    by_cases hp : p.1 = ip
    · simp [storeSet, if_pos hp, storeGet, List.find?]
    · simp only [storeSet, if_neg hp]
      rw [storeGet] at ih ⊢
      rw [List.find?_cons_of_neg]
      · exact ih
      · simp [hp]

theorem mem_storeSet {q : String × RateLimitEntry} :
    ∀ {store : RateLimitStore} {ip : String} {e : RateLimitEntry},
      q ∈ storeSet store ip e → q = (ip, e) ∨ q ∈ store := by
  intro store
  induction store with
  | nil =>
    intro ip e h
    simp [storeSet] at h
    exact Or.inl h
  | cons p rest ih =>
    intro ip e h
    by_cases hp : p.1 = ip
    · rw [storeSet, if_pos hp] at h
      rcases List.mem_cons.mp h with h' | h'
      · exact Or.inl h'
      · exact Or.inr (List.mem_cons_of_mem p h')
    · rw [storeSet, if_neg hp] at h
      rcases List.mem_cons.mp h with h' | h'
      · exact Or.inr (by simp [h'])
      · rcases ih h' with h'' | h''
        · exact Or.inl h''
        · exact Or.inr (List.mem_cons_of_mem p h'')

/-- C3.  With `maxRequests = 3` and a window longer than the elapsed
time, four consecutive `checkRateLimit` calls for the same identifier
starting from an empty store yield `allowed = [true, true, true,
false]` and `remaining = [2, 1, 0, 0]`, and the stored counter is
incremented only on the allowed calls (it stays at 3 after the blocked
fourth call). -/
theorem rate_limit_three_allowed_then_blocked
    (d t1 t2 t3 t4 : Int) (ip : String)
    (h12 : t1 ≤ t2) (h23 : t2 ≤ t3) (h34 : t3 ≤ t4) (hd : t4 - t1 < d) :
    (checkRateLimit ⟨3, d⟩ t1 [] ip).1.allowed = true ∧
    (checkRateLimit ⟨3, d⟩ t1 [] ip).1.remaining = 2 ∧
    (checkRateLimit ⟨3, d⟩ t1 [] ip).2 = [(ip, ⟨1, t1⟩)] ∧
    (checkRateLimit ⟨3, d⟩ t2 [(ip, ⟨1, t1⟩)] ip).1.allowed = true ∧
    (checkRateLimit ⟨3, d⟩ t2 [(ip, ⟨1, t1⟩)] ip).1.remaining = 1 ∧
    (checkRateLimit ⟨3, d⟩ t2 [(ip, ⟨1, t1⟩)] ip).2 = [(ip, ⟨2, t1⟩)] ∧
    (checkRateLimit ⟨3, d⟩ t3 [(ip, ⟨2, t1⟩)] ip).1.allowed = true ∧
    (checkRateLimit ⟨3, d⟩ t3 [(ip, ⟨2, t1⟩)] ip).1.remaining = 0 ∧
    (checkRateLimit ⟨3, d⟩ t3 [(ip, ⟨2, t1⟩)] ip).2 = [(ip, ⟨3, t1⟩)] ∧
    (checkRateLimit ⟨3, d⟩ t4 [(ip, ⟨3, t1⟩)] ip).1.allowed = false ∧
    (checkRateLimit ⟨3, d⟩ t4 [(ip, ⟨3, t1⟩)] ip).1.remaining = 0 ∧
    (checkRateLimit ⟨3, d⟩ t4 [(ip, ⟨3, t1⟩)] ip).2 = [(ip, ⟨3, t1⟩)] := by
  have hw2 : ¬(t2 - t1 ≥ d) := by omega
  have hw3 : ¬(t3 - t1 ≥ d) := by omega
  have hw4 : ¬(t4 - t1 ≥ d) := by omega
  have e1 : checkRateLimit ⟨3, d⟩ t1 [] ip =
      ({ allowed := true, remaining := 2, resetTime := t1 + d, retryAfter := none },
       [(ip, ⟨1, t1⟩)]) := by
    simp [checkRateLimit, storeGet, storeSet, List.find?]
  have e2 : checkRateLimit ⟨3, d⟩ t2 [(ip, ⟨1, t1⟩)] ip =
      ({ allowed := true, remaining := 1, resetTime := t1 + d, retryAfter := none },
       [(ip, ⟨2, t1⟩)]) := by
    simp [checkRateLimit, storeGet, storeSet, List.find?, hw2]
  have e3 : checkRateLimit ⟨3, d⟩ t3 [(ip, ⟨2, t1⟩)] ip =
      ({ allowed := true, remaining := 0, resetTime := t1 + d, retryAfter := none },
       [(ip, ⟨3, t1⟩)]) := by
    simp [checkRateLimit, storeGet, storeSet, List.find?, hw3]
  have e4 : checkRateLimit ⟨3, d⟩ t4 [(ip, ⟨3, t1⟩)] ip =
      ({ allowed := false, remaining := 0, resetTime := t1 + d,
         retryAfter := some (ceilDiv (t1 + d - t4) 1000) },
       [(ip, ⟨3, t1⟩)]) := by
    simp [checkRateLimit, storeGet, storeSet, List.find?, hw4]
  refine ⟨by rw [e1], by rw [e1], by rw [e1], by rw [e2], by rw [e2], by rw [e2],
    by rw [e3], by rw [e3], by rw [e3], by rw [e4], by rw [e4], by rw [e4]⟩

/-- C3 (witness).  The four-call scenario at `d = 10`,
`t = 0, 1, 2, 3` and identifier `"a"`. -/
theorem rate_limit_three_allowed_then_blocked_witness :
    (checkRateLimit ⟨3, 10⟩ 0 [] "a").1.allowed = true ∧
    (checkRateLimit ⟨3, 10⟩ 0 [] "a").1.remaining = 2 ∧
    (checkRateLimit ⟨3, 10⟩ 0 [] "a").2 = [("a", ⟨1, 0⟩)] ∧
    (checkRateLimit ⟨3, 10⟩ 1 [("a", ⟨1, 0⟩)] "a").1.allowed = true ∧
    (checkRateLimit ⟨3, 10⟩ 1 [("a", ⟨1, 0⟩)] "a").1.remaining = 1 ∧
    (checkRateLimit ⟨3, 10⟩ 1 [("a", ⟨1, 0⟩)] "a").2 = [("a", ⟨2, 0⟩)] ∧
    (checkRateLimit ⟨3, 10⟩ 2 [("a", ⟨2, 0⟩)] "a").1.allowed = true ∧
    (checkRateLimit ⟨3, 10⟩ 2 [("a", ⟨2, 0⟩)] "a").1.remaining = 0 ∧
    (checkRateLimit ⟨3, 10⟩ 2 [("a", ⟨2, 0⟩)] "a").2 = [("a", ⟨3, 0⟩)] ∧
    (checkRateLimit ⟨3, 10⟩ 3 [("a", ⟨3, 0⟩)] "a").1.allowed = false ∧
    (checkRateLimit ⟨3, 10⟩ 3 [("a", ⟨3, 0⟩)] "a").1.remaining = 0 ∧
    (checkRateLimit ⟨3, 10⟩ 3 [("a", ⟨3, 0⟩)] "a").2 = [("a", ⟨3, 0⟩)] :=
  rate_limit_three_allowed_then_blocked 10 0 1 2 3 "a" (by decide) (by decide)
    (by decide) (by decide)

/-- C5.  After the window elapses for an exhausted identifier, the next
`checkRateLimit` call is allowed with `remaining = maxRequests - 1`,
and the stored entry is reset to one consumed request in a window
anchored at the time of the call. -/
theorem rate_limit_window_reset
    (cfg : RateLimitConfig) (now : Int) (store : RateLimitStore) (ip : String)
    (e : RateLimitEntry) (hget : storeGet store ip = some e)
    (hexh : e.count = cfg.maxRequests)
    (hexp : now - e.windowStart ≥ cfg.windowDurationMs)
    (hmax : 1 ≤ cfg.maxRequests) :
    (checkRateLimit cfg now store ip).1.allowed = true ∧
    (checkRateLimit cfg now store ip).1.remaining = cfg.maxRequests - 1 ∧
    storeGet (checkRateLimit cfg now store ip).2 ip = some ⟨1, now⟩ := by
  have hall : (0 : Int) < cfg.maxRequests := by omega
  simp only [checkRateLimit, hget, if_pos hexp, if_pos hall]
  refine ⟨by simpa using hall, by omega, ?_⟩
  exact storeGet_storeSet_self store ip ⟨1, now⟩

/-- C5 (witness).  Window reset at `maxRequests = 3`, window 1000 ms,
an entry exhausted at time 0, checked again at time 1000. -/
theorem rate_limit_window_reset_witness :
    (checkRateLimit ⟨3, 1000⟩ 1000 [("a", ⟨3, 0⟩)] "a").1.allowed = true ∧
    (checkRateLimit ⟨3, 1000⟩ 1000 [("a", ⟨3, 0⟩)] "a").1.remaining = 3 - 1 ∧
    storeGet (checkRateLimit ⟨3, 1000⟩ 1000 [("a", ⟨3, 0⟩)] "a").2 "a" = some ⟨1, 1000⟩ :=
  rate_limit_window_reset ⟨3, 1000⟩ 1000 [("a", ⟨3, 0⟩)] "a" ⟨3, 0⟩ (by rfl)
    (by rfl) (by decide) (by decide)

end SendSafe

namespace SendSafe

/-! ### Store invariant under arbitrary operation sequences -/

theorem checkRateLimit_snd (cfg : RateLimitConfig) (now : Int) (store : RateLimitStore)
    (ip : String) :
    (checkRateLimit cfg now store ip).2 =
      storeSet store ip (nextEntry cfg now (storeGet store ip)) := rfl

theorem storeGet_mem {store : RateLimitStore} {ip : String} {e : RateLimitEntry}
    (h : storeGet store ip = some e) : (ip, e) ∈ store := by
  rw [storeGet] at h
  cases hf : store.find? (fun p => p.1 = ip) with
  | none => rw [hf] at h; simp at h
  | some q =>
    rw [hf] at h
    simp at h
    have hq := List.mem_of_find?_eq_some hf
    have hq1 : q.1 = ip := by simpa using List.find?_some hf
    have : q = (ip, e) := by
      cases q
      simp_all
    rw [this] at hq
    exact hq

theorem bump_bounds (cfg : RateLimitConfig) (ent : RateLimitEntry)
    (h0 : 0 ≤ ent.count) (h1 : ent.count ≤ cfg.maxRequests) :
    0 ≤ (if ent.count < cfg.maxRequests then
          { ent with count := ent.count + 1 } else ent).count ∧
      (if ent.count < cfg.maxRequests then
          { ent with count := ent.count + 1 } else ent).count ≤ cfg.maxRequests := by
  split_ifs with hlt
  · exact ⟨show (0 : Int) ≤ ent.count + 1 by omega,
      show ent.count + 1 ≤ cfg.maxRequests by omega⟩
  · exact ⟨h0, h1⟩

theorem nextEntry_bounds (cfg : RateLimitConfig) (now : Int) (looked : Option RateLimitEntry)
    (h : 0 ≤ cfg.maxRequests)
    (ho : ∀ e, looked = some e → 0 ≤ e.count ∧ e.count ≤ cfg.maxRequests) :
    0 ≤ (nextEntry cfg now looked).count ∧
      (nextEntry cfg now looked).count ≤ cfg.maxRequests := by
  rcases looked with _ | e
  · exact bump_bounds cfg ⟨0, now⟩ (le_refl 0) h
  · have he := ho e rfl
    rw [nextEntry]
    by_cases hexp : now - e.windowStart ≥ cfg.windowDurationMs
    · rw [if_pos hexp]
      exact bump_bounds cfg ⟨0, now⟩ (le_refl 0) h
    · rw [if_neg hexp]
      exact bump_bounds cfg e he.1 he.2

theorem runOp_preserves_bounds (cfg : RateLimitConfig) (h : 0 ≤ cfg.maxRequests)
    (store : RateLimitStore) (op : RateLimitOp)
    (hinv : ∀ p ∈ store, 0 ≤ p.2.count ∧ p.2.count ≤ cfg.maxRequests) :
    ∀ p ∈ runOp cfg store op, 0 ≤ p.2.count ∧ p.2.count ≤ cfg.maxRequests := by
  intro p hp
  cases op with
  | check ip now =>
    rw [runOp, checkRateLimit_snd] at hp
    rcases mem_storeSet hp with hpe | hpm
    · subst hpe
      refine nextEntry_bounds cfg now (storeGet store ip) h ?_
      intro e he
      exact hinv (ip, e) (storeGet_mem he)
    · exact hinv p hpm
  | status ip now => exact hinv p hp
  | reset ip =>
    rw [runOp, resetRateLimit] at hp
    exact hinv p (List.mem_of_mem_filter hp)
  | clearAll => simp [runOp, clearAllRateLimits] at hp
  | cleanup now =>
    rw [runOp, cleanupExpiredEntries] at hp
    exact hinv p (List.mem_of_mem_filter hp)

theorem runOps_preserves_bounds (cfg : RateLimitConfig) (h : 0 ≤ cfg.maxRequests)
    (ops : List RateLimitOp) :
    ∀ store : RateLimitStore,
      (∀ p ∈ store, 0 ≤ p.2.count ∧ p.2.count ≤ cfg.maxRequests) →
      ∀ p ∈ runOps cfg store ops, 0 ≤ p.2.count ∧ p.2.count ≤ cfg.maxRequests := by
  induction ops with
  | nil =>
    intro store hinv p hp
    exact hinv p hp
  | cons op rest ih =>
    intro store hinv p hp
    rw [runOps, List.foldl_cons] at hp
    exact ih (runOp cfg store op) (runOp_preserves_bounds cfg h store op hinv) p hp

/-- C9.  Starting from the empty store, after any finite sequence of
rate-limiter operations with `maxRequests ≥ 0`, every stored entry has
`0 ≤ count ≤ maxRequests`, so the `Math.max(0, maxRequests - count)`
clamp never changes the value. -/
theorem store_counts_bounded (cfg : RateLimitConfig) (h : 0 ≤ cfg.maxRequests)
    (ops : List RateLimitOp) (p : String × RateLimitEntry)
    (hp : p ∈ runOps cfg [] ops) :
    0 ≤ p.2.count ∧ p.2.count ≤ cfg.maxRequests ∧
      max 0 (cfg.maxRequests - p.2.count) = cfg.maxRequests - p.2.count := by
  have hb := runOps_preserves_bounds cfg h ops [] (by simp) p hp
  exact ⟨hb.1, hb.2, by omega⟩

/-- C9 (witness).  The invariant applied to the entry left by three
consecutive checks (two allowed, one blocked) under `maxRequests = 2`. -/
theorem store_counts_bounded_witness :
    0 ≤ (("a", (⟨2, 0⟩ : RateLimitEntry)) : String × RateLimitEntry).2.count ∧
    (("a", (⟨2, 0⟩ : RateLimitEntry)) : String × RateLimitEntry).2.count ≤
      (⟨2, 1000⟩ : RateLimitConfig).maxRequests ∧
    max 0 ((⟨2, 1000⟩ : RateLimitConfig).maxRequests -
        (("a", (⟨2, 0⟩ : RateLimitEntry)) : String × RateLimitEntry).2.count) =
      (⟨2, 1000⟩ : RateLimitConfig).maxRequests -
        (("a", (⟨2, 0⟩ : RateLimitEntry)) : String × RateLimitEntry).2.count :=
  store_counts_bounded ⟨2, 1000⟩ (by decide)
    [.check "a" 0, .check "a" 0, .check "a" 0] ("a", ⟨2, 0⟩) (by decide)

end SendSafe

namespace SendSafe

/-- C4.  `getRateLimitStatus` never mutates the store: deleting every
status query from an operation sequence leaves the final store and the
full sequence of `checkRateLimit` results unchanged; and for an unknown
identifier, or one whose stored window has expired, it reports
`allowed = true` with the full quota against a hypothetical window
starting now. -/
theorem status_queries_do_not_affect_checks
    (cfg : RateLimitConfig) (store : RateLimitStore) (ops : List RateLimitOp)
    (ip : String) (now : Int) (e : RateLimitEntry) :
    runOpsResults cfg store ops =
      runOpsResults cfg store (ops.filter (fun op => !op.isStatus)) ∧
    (storeGet store ip = none →
      getRateLimitStatus cfg now store ip =
        { allowed := true, remaining := cfg.maxRequests,
          resetTime := now + cfg.windowDurationMs, retryAfter := none }) ∧
    (storeGet store ip = some e → now - e.windowStart ≥ cfg.windowDurationMs →
      getRateLimitStatus cfg now store ip =
        { allowed := true, remaining := cfg.maxRequests,
          resetTime := now + cfg.windowDurationMs, retryAfter := none }) := by
  refine ⟨?_, ?_, ?_⟩
  · induction ops generalizing store with
    | nil => rfl
    | cons op rest ih =>
      cases op with
      | check ip' now' =>
        have hfil : List.filter (fun op => !op.isStatus)
            (RateLimitOp.check ip' now' :: rest) =
            RateLimitOp.check ip' now' :: List.filter (fun op => !op.isStatus) rest := by
          simp [List.filter_cons, RateLimitOp.isStatus]
        rw [hfil, runOpsResults, runOpsResults, ih ((checkRateLimit cfg now' store ip').2)]
      | status ip' now' =>
        have hfil : List.filter (fun op => !op.isStatus)
            (RateLimitOp.status ip' now' :: rest) =
            List.filter (fun op => !op.isStatus) rest := by
          simp [List.filter_cons, RateLimitOp.isStatus]
        rw [hfil]
        exact ih store
      | reset ip' =>
        have hfil : List.filter (fun op => !op.isStatus)
            (RateLimitOp.reset ip' :: rest) =
            RateLimitOp.reset ip' :: List.filter (fun op => !op.isStatus) rest := by
          simp [List.filter_cons, RateLimitOp.isStatus]
        rw [hfil]
        exact ih ((resetRateLimit store ip').2)
      | clearAll =>
        have hfil : List.filter (fun op => !op.isStatus)
            (RateLimitOp.clearAll :: rest) =
            RateLimitOp.clearAll :: List.filter (fun op => !op.isStatus) rest := by
          simp [List.filter_cons, RateLimitOp.isStatus]
        rw [hfil]
        exact ih clearAllRateLimits
      | cleanup now' =>
        have hfil : List.filter (fun op => !op.isStatus)
            (RateLimitOp.cleanup now' :: rest) =
            RateLimitOp.cleanup now' :: List.filter (fun op => !op.isStatus) rest := by
          simp [List.filter_cons, RateLimitOp.isStatus]
        rw [hfil]
        exact ih ((cleanupExpiredEntries cfg now' store).2)
  · intro hget
    simp only [getRateLimitStatus, hget]
  · intro hget hexp
    simp only [getRateLimitStatus, hget]
    rw [if_pos hexp]

/-- C4 (witness).  A status query before a check does not change the
check's result, and the hypothetical-window answers at a concrete
unknown identifier and a concrete expired entry. -/
theorem status_queries_do_not_affect_checks_witness :
    getRateLimitStatus ⟨5, 1000⟩ 2000 [] "a" =
      { allowed := true, remaining := 5, resetTime := 3000, retryAfter := none } ∧
    getRateLimitStatus ⟨5, 1000⟩ 2000 [("a", ⟨5, 0⟩)] "a" =
      { allowed := true, remaining := 5, resetTime := 3000, retryAfter := none } ∧
    runOpsResults ⟨5, 1000⟩ [] [.status "a" 0, .check "a" 1] =
      runOpsResults ⟨5, 1000⟩ [] [.check "a" 1] := by
  have h1 := status_queries_do_not_affect_checks ⟨5, 1000⟩ [] [.status "a" 0, .check "a" 1]
    "a" 2000 ⟨5, 0⟩
  have h2 := status_queries_do_not_affect_checks ⟨5, 1000⟩ [("a", ⟨5, 0⟩)] [] "a" 2000 ⟨5, 0⟩
  refine ⟨h1.2.1 rfl, h2.2.2 rfl (by decide), ?_⟩
  have h3 := h1.1
  simpa using h3

end SendSafe

namespace SendSafe

/-! ### IP extraction claim theorems -/

/-- C10 (counterexample).  When `x-forwarded-for` is present as an
empty array — a value the header type `string | string[]` permits —
the source takes the truthy-array branch, reads `ip[0]` (which is
`undefined`) and calls `.split` on it, raising a `TypeError` instead of
returning a string. -/
theorem extract_ip_throws_on_empty_array :
    extractIPAddress [("x-forwarded-for", HeaderValue.arr [])] = .error () := by
  rfl

theorem truthyHeader_eq_some {headers : Headers} {name : String} {v : HeaderValue}
    (h : truthyHeader headers name = some v) :
    headersGet headers name = some v ∧ hvTruthy v = true := by
  rw [truthyHeader] at h
  cases hg : headersGet headers name with
  | none => rw [hg] at h; simp at h
  | some w =>
    rw [hg] at h
    by_cases ht : hvTruthy w = true
    · simp [ht] at h
      subst h
      simp_all
    · simp [ht] at h

/-- C10 (amended).  `extractIPAddress` returns a string for every
header mapping in which none of the four checked headers is bound to an
empty array; in particular when all four are absent it returns the
sentinel `"unknown"`.  (With an empty-array binding it can instead
raise a `TypeError`, as the counterexample shows.) -/
theorem extract_ip_total_without_empty_arrays (headers : Headers) :
    ((ipHeaderOk headers "x-forwarded-for" && ipHeaderOk headers "x-real-ip" &&
      ipHeaderOk headers "cf-connecting-ip" && ipHeaderOk headers "x-client-ip") = true →
      ∃ s, extractIPAddress headers = .ok s) ∧
    (headersGet headers "x-forwarded-for" = none → headersGet headers "x-real-ip" = none →
      headersGet headers "cf-connecting-ip" = none → headersGet headers "x-client-ip" = none →
      extractIPAddress headers = .ok "unknown") := by
  constructor
  · intro hok
    simp only [Bool.and_eq_true] at hok
    rw [extractIPAddress]
    cases h1 : truthyHeader headers "x-forwarded-for" with
    | some v =>
      obtain ⟨hg, ht⟩ := truthyHeader_eq_some h1
      cases v with
      | str s => exact ⟨_, rfl⟩
      | arr elems =>
        cases elems with
        | nil => simp [ipHeaderOk, hg] at hok
        | cons x xs => exact ⟨_, rfl⟩
    | none =>
      cases h2 : truthyHeader headers "x-real-ip" with
      | some v =>
        obtain ⟨hg, ht⟩ := truthyHeader_eq_some h2
        cases v with
        | str s => exact ⟨_, rfl⟩
        | arr elems =>
          cases elems with
          | nil => simp [ipHeaderOk, hg] at hok
          | cons x xs => exact ⟨_, rfl⟩
      | none =>
        cases h3 : truthyHeader headers "cf-connecting-ip" with
        | some v =>
          obtain ⟨hg, ht⟩ := truthyHeader_eq_some h3
          cases v with
          | str s => exact ⟨_, rfl⟩
          | arr elems =>
            cases elems with
            | nil => simp [ipHeaderOk, hg] at hok
            | cons x xs => exact ⟨_, rfl⟩
        | none =>
          cases h4 : truthyHeader headers "x-client-ip" with
          | some v =>
            obtain ⟨hg, ht⟩ := truthyHeader_eq_some h4
            cases v with
            | str s => exact ⟨_, rfl⟩
            | arr elems =>
              cases elems with
              | nil => simp [ipHeaderOk, hg] at hok
              | cons x xs => exact ⟨_, rfl⟩
          | none => exact ⟨_, rfl⟩
  · intro a1 a2 a3 a4
    rw [extractIPAddress]
    rw [show truthyHeader headers "x-forwarded-for" = none from by rw [truthyHeader, a1]]
    rw [show truthyHeader headers "x-real-ip" = none from by rw [truthyHeader, a2]]
    rw [show truthyHeader headers "cf-connecting-ip" = none from by rw [truthyHeader, a3]]
    rw [show truthyHeader headers "x-client-ip" = none from by rw [truthyHeader, a4]]

/-- C10 (witness).  The totality result at a concrete empty header
mapping and at a concrete mapping carrying a real-IP string. -/
theorem extract_ip_total_without_empty_arrays_witness :
    extractIPAddress [] = .ok "unknown" ∧
    extractIPAddress [("x-real-ip", HeaderValue.str " 7.7.7.7 ")] ≠ .error () := by
  have h1 := extract_ip_total_without_empty_arrays []
  have h2 := extract_ip_total_without_empty_arrays [("x-real-ip", HeaderValue.str " 7.7.7.7 ")]
  refine ⟨h1.2 rfl rfl rfl rfl, ?_⟩
  obtain ⟨s, hs⟩ := h2.1 (by rfl)
  rw [hs]
  simp

end SendSafe

namespace SendSafe

/-- C2 (witness).  Idempotence applied to a concrete messy input that
is cleaned but not truncated under `maxLength = 100`. -/
theorem sanitize_idempotent_when_not_truncated_witness :
    (sanitizeInput 100 ((sanitizeInput 100 "  a\u0000b \n\n\n\n c ").sanitizedText)).sanitizedText =
      (sanitizeInput 100 "  a\u0000b \n\n\n\n c ").sanitizedText ∧
    (sanitizeInput 100 ((sanitizeInput 100 "  a\u0000b \n\n\n\n c ").sanitizedText)).removedCharacters
      = 0 :=
  sanitize_idempotent_when_not_truncated 100 "  a\u0000b \n\n\n\n c " (by decide)

end SendSafe
